import Mathlib

/-!
Verification of the socket-based presence/broadcast relay of the
fry-dt-backend repository (src/socket/chatHandlers.js and the status
handlers bundled with it).

The registry `allUsers` is a JS array of user records; handlers mutate it
in place.  We embed it as a `List User` threaded through pure functions,
and each socket handler as a function returning the list of emitted
events together with the new registry state.  Times are `Int`
milliseconds (JS `Date.now()` values are exact integers below 2^53).
-/

namespace FryDT

/-- A record of the `allUsers` array.  `join_room` pushes
`{ username, user, room, id }`; the status handlers later add `status`,
`lastActivity` and `currentActivity` fields, absent until then. -/
structure User where
  username : String
  user : String
  room : String
  id : String
  status : Option String := none
  lastActivity : Option Int := none
  currentActivity : Option String := none
deriving Repr, DecidableEq

/-- Addressing mode of an emitted socket event: `socket.to(room).emit`
(room members except the sender), `io.in(room).emit` (all room members),
or `socket.emit` (the sender alone). -/
inductive Target where
  | toRoomExceptSelf (senderId room : String)
  | toRoomAll (room : String)
  | toSelf (senderId : String)
deriving Repr, DecidableEq

/-- An emitted socket event: its addressing mode and its event name. -/
structure Emit where
  target : Target
  event : String
deriving Repr, DecidableEq

/-- Delivery scoping of socket.io emits, applied to the registered
participants: `socket.to(room)` reaches every registered participant of
`room` other than the sender, `io.in(room)` reaches every registered
participant of `room` including the sender, `socket.emit` reaches only
the sender.  Returns the connection ids reached. -/
def deliveredTo (st : List User) : Emit → List String
  | ⟨.toRoomExceptSelf senderId room, _⟩ =>
    (st.filter (fun u => u.room == room && u.id != senderId)).map User.id
  | ⟨.toRoomAll room, _⟩ => (st.filter (fun u => u.room == room)).map User.id
  | ⟨.toSelf senderId, _⟩ => [senderId]

/-- The `join_room` handler: announce the join to the room (sender
excluded), push `{ username, user, room, id }` unless an entry with this
socket id already exists, emit the room roster to the room, and send the
welcome message back to the joiner. -/
def joinRoom (username userField room cid : String) (st : List User) :
    List Emit × List User :=
  let joinMsg : Emit := ⟨.toRoomExceptSelf cid room, "receive_message"⟩
  let st' :=
    if (st.find? (fun u => u.id == cid)).isSome then st
    else st ++ [{ username := username, user := userField, room := room, id := cid }]
  let rosterMsg : Emit := ⟨.toRoomAll room, "chatroom_users"⟩
  let welcomeMsg : Emit := ⟨.toSelf cid, "receive_message"⟩
  ([joinMsg, rosterMsg, welcomeMsg], st')

/-- JS falsiness of an optional string payload field: absent (`undefined`)
or the empty string. -/
def falsy : Option String → Bool
  | none => true
  | some s => s.isEmpty

/-- The `send_message` handler: if `message`, `username` or `room` is
falsy, emit an `error` event back to the sender and stop; otherwise emit
the message to the whole room via `io.in(room)`.  The registry is never
touched. -/
def sendMessage (message username room : Option String) (cid : String)
    (st : List User) : List Emit × List User :=
  if falsy message || falsy username || falsy room then
    ([⟨.toSelf cid, "error"⟩], st)
  else
    ([⟨.toRoomAll (room.getD ""), "receive_message"⟩], st)

/-- In-place update of the first array element satisfying `p`
(JS `findIndex` followed by a mutation of `allUsers[userIndex]`). -/
def setFirst (p : User → Bool) (f : User → User) : List User → List User
  | [] => []
  | u :: us => if p u then f u :: us else u :: setFirst p f us

/-- The `update_status` handler: set `status` and `lastActivity` on the
entry with the sender's socket id when present, then broadcast
`user_status_update` to the room excluding the sender — unconditionally,
whether or not the sender was found. -/
def updateStatus (statusVal room cid : String) (now : Int) (st : List User) :
    List Emit × List User :=
  let st' := setFirst (fun u => u.id == cid)
    (fun u => { u with status := some statusVal, lastActivity := some now }) st
  ([⟨.toRoomExceptSelf cid room, "user_status_update"⟩], st')

/-- The `user_activity` handler: refresh `lastActivity` and record
`currentActivity` on the sender's entry when present; broadcast
`user_activity_update` to the room (sender excluded) only when the
activity asks for a broadcast. -/
def userActivity (activityType : String) (wantBroadcast : Bool)
    (room cid : String) (now : Int) (st : List User) : List Emit × List User :=
  let st' := setFirst (fun u => u.id == cid)
    (fun u => { u with lastActivity := some now, currentActivity := some activityType }) st
  (if wantBroadcast then [⟨.toRoomExceptSelf cid room, "user_activity_update"⟩] else [], st')

/-- The `removeUser` helper: `findIndex` on the socket id and `splice` of
one element; returns the removed record (or `null`) and the resulting
array. -/
def removeUser (cid : String) : List User → Option User × List User
  | [] => (none, [])
  | u :: us =>
    if u.id == cid then (some u, us)
    else
      let r := removeUser cid us
      (r.1, u :: r.2)

/-- Modelled from the spec: the body of `leaveRoom`
(src/utils/leave-room.js) is imported by the socket server but is not
under src/.  The spec's registry `remove` "deletes the participant", so
leaving a room is modelled as dropping every entry carrying the departed
participant's connection id. -/
def leaveRoom (u : User) (st : List User) : List User :=
  st.filter (fun v => v.id != u.id)

/-- The `disconnect` handler: remove the user via `removeUser`; when a
record was removed, run `leaveRoom` and notify the former room (sender
excluded) with the fresh roster and a ChatBot departure message; when
nothing was removed, do nothing. -/
def handleDisconnect (cid : String) (st : List User) : List Emit × List User :=
  match removeUser cid st with
  | (none, st') => ([], st')
  | (some u, st') =>
    let st'' := leaveRoom u st'
    ([⟨.toRoomExceptSelf cid u.room, "chatroom_users"⟩,
      ⟨.toRoomExceptSelf cid u.room, "receive_message"⟩], st'')

/-- `cleanupInactiveUsers`: keep exactly the users whose
`now - (lastActivity || 0)` is below the timeout (default 600000 ms =
10 minutes); the array is rewritten to the filtered survivors. -/
def cleanupInactiveUsers (now timeoutMs : Int) (st : List User) : List User :=
  st.filter (fun u => now - (u.lastActivity.getD 0) < timeoutMs)

/-- One run of the periodic cleanup callback: it only calls
`cleanupInactiveUsers()` with the default 10-minute timeout and emits
nothing at all. -/
def janitorTick (now : Int) (st : List User) : List Emit × List User :=
  ([], cleanupInactiveUsers now 600000 st)

/-- `getUsersInRoom`: filter the registry by the `room` field. -/
def getUsersInRoom (room : String) (st : List User) : List User :=
  st.filter (fun u => u.room == room)

/-- The operations that can touch the registry, for reasoning about
reachable registry states. -/
inductive Op where
  | join (username userField room cid : String)
  | message (message username room : Option String) (cid : String)
  | statusUpd (statusVal room cid : String) (now : Int)
  | activity (activityType : String) (wantBroadcast : Bool)
      (room cid : String) (now : Int)
  | disconnect (cid : String)
  | janitor (now : Int)

/-- The registry-state effect of one operation. -/
def stepState : Op → List User → List User
  | .join un uf rm cid, st => (joinRoom un uf rm cid st).2
  | .message m un rm cid, st => (sendMessage m un rm cid st).2
  | .statusUpd s rm cid now, st => (updateStatus s rm cid now st).2
  | .activity a b rm cid now, st => (userActivity a b rm cid now st).2
  | .disconnect cid, st => (handleDisconnect cid st).2
  | .janitor now, st => (janitorTick now st).2

/-- Run a sequence of operations on a registry state. -/
def run (ops : List Op) (st : List User) : List User :=
  ops.foldl (fun s op => stepState op s) st

/-- The connection ids of a registry state, in array order. -/
def idsOf (st : List User) : List String := st.map User.id

/-- The connection ids of the `join` operations of a sequence, in
order. -/
def joinIds : List Op → List String
  | [] => []
  | .join _ _ _ cid :: ops => cid :: joinIds ops
  | _ :: ops => joinIds ops

/-! ### Basic lemmas about the registry operations -/

/-- `setFirst` with an id-preserving update leaves the id column of the
registry unchanged. -/
theorem setFirst_idsOf (p : User → Bool) (f : User → User)
    (hf : ∀ u, (f u).id = u.id) :
    ∀ st : List User, idsOf (setFirst p f st) = idsOf st := by
  intro st
  induction st with
  | nil => rfl
  | cons u us ih =>
    by_cases h : p u = true
    · simp [setFirst, h, idsOf, hf u]
    · simp only [Bool.not_eq_true] at h
      simp only [setFirst, h, Bool.false_eq_true, if_false]
      simp only [idsOf, List.map_cons] at ih ⊢
      rw [ih]

/-- The array left after `removeUser` is a subsequence of the original. -/
theorem removeUser_snd_sublist (cid : String) :
    ∀ st : List User, (removeUser cid st).2.Sublist st := by
  intro st
  induction st with
  | nil => simp [removeUser]
  | cons u us ih =>
    by_cases h : (u.id == cid) = true
    · simp [removeUser, h]
    · simp only [Bool.not_eq_true] at h
      simpa [removeUser, h] using ih.cons₂ u

/-- `removeUser` returns exactly the first array entry with the searched
socket id. -/
theorem removeUser_fst_eq_find (cid : String) :
    ∀ st : List User, (removeUser cid st).1 = st.find? (fun u => u.id == cid) := by
  intro st
  induction st with
  | nil => rfl
  | cons u us ih =>
    by_cases h : (u.id == cid) = true
    · simp [removeUser, h, List.find?]
    · simp only [Bool.not_eq_true] at h
      simp [removeUser, h, List.find?, ih]

/-- `removeUser` on an array that contains no entry with the searched id
returns `null` and leaves the array unchanged. -/
theorem removeUser_of_absent (cid : String) (st : List User)
    (h : ∀ u ∈ st, u.id ≠ cid) : removeUser cid st = (none, st) := by
  induction st with
  | nil => rfl
  | cons u us ih =>
    have hu : (u.id == cid) = false := by
      simpa using h u (List.mem_cons_self u us)
    have ihh := ih (fun v hv => h v (List.mem_cons_of_mem u hv))
    simp [removeUser, hu, ihh]

/-- When the predicate holds of no array element, the in-place update is
the identity. -/
theorem setFirst_of_absent (p : User → Bool) (f : User → User) :
    ∀ st : List User, (∀ u ∈ st, p u = false) → setFirst p f st = st := by
  intro st h
  induction st with
  | nil => rfl
  | cons u us ih =>
    have hu := h u (List.mem_cons_self u us)
    simp [setFirst, hu, ih (fun v hv => h v (List.mem_cons_of_mem u hv))]

/-- Every operation leaves the id column of the registry without
duplicates when it was without duplicates before. -/
theorem stepState_nodup (op : Op) (st : List User)
    (h : (idsOf st).Nodup) : (idsOf (stepState op st)).Nodup := by
  cases op with
  | join un uf rm cid =>
    simp only [stepState, joinRoom]
    by_cases hfind : (st.find? (fun u => u.id == cid)).isSome
    · simpa [hfind] using h
    · have hnone : st.find? (fun u => u.id == cid) = none :=
        Option.not_isSome_iff_eq_none.mp hfind
      have hdisj : ∀ x ∈ st, ¬ x.id = cid := by
        intro x hx
        have := List.find?_eq_none.mp hnone x hx
        simpa using this
      rw [hnone]
      simpa [idsOf, List.nodup_append] using ⟨h, hdisj⟩
  | message m un rm cid =>
    by_cases hv : (falsy m || falsy un || falsy rm) = true
    · simpa [stepState, sendMessage, hv] using h
    · simpa [stepState, sendMessage, hv] using h
  | statusUpd s rm cid now =>
    have := setFirst_idsOf (fun u => u.id == cid)
      (fun u => { u with status := some s, lastActivity := some now })
      (fun _ => rfl) st
    simpa [stepState, updateStatus, this] using h
  | activity a b rm cid now =>
    have := setFirst_idsOf (fun u => u.id == cid)
      (fun u => { u with lastActivity := some now, currentActivity := some a })
      (fun _ => rfl) st
    simpa [stepState, userActivity, this] using h
  | disconnect cid =>
    simp only [stepState, handleDisconnect]
    have hsub := removeUser_snd_sublist cid st
    rcases hr : removeUser cid st with ⟨ru, st'⟩
    have hsub' : st'.Sublist st := by simpa [hr] using hsub
    cases ru with
    | none =>
      exact ((hsub'.map User.id).nodup h)
    | some u =>
      have hsub'' : (leaveRoom u st').Sublist st :=
        (List.filter_sublist st').trans hsub'
      exact ((hsub''.map User.id).nodup h)
  | janitor now =>
    exact (((List.filter_sublist st).map User.id).nodup h)

/-- The id column of a run is a subsequence of the starting ids followed
by the joined ids, in operation order. -/
theorem run_idsOf_sublist : ∀ (ops : List Op) (st : List User),
    (idsOf (run ops st)).Sublist (idsOf st ++ joinIds ops) := by
  intro ops
  induction ops with
  | nil => intro st; simp [run, joinIds]
  | cons op ops ih =>
    intro st
    have hrun : run (op :: ops) st = run ops (stepState op st) := rfl
    have ih' := ih (stepState op st)
    cases op with
    | join un uf rm cid =>
      by_cases hfind : ((st.find? (fun u => u.id == cid)).isSome : Prop)
      · have hst : stepState (.join un uf rm cid) st = st := by
          simp [stepState, joinRoom, hfind]
        rw [hrun, hst]
        refine (ih st).trans ?_
        refine List.Sublist.append_left ?_ (idsOf st)
        simp [joinIds]
      · have hst : stepState (.join un uf rm cid) st
            = st ++ [{ username := un, user := uf, room := rm, id := cid }] := by
          simp [stepState, joinRoom, hfind]
        rw [hrun, hst]
        refine (ih _).trans ?_
        have : idsOf (st ++ [{ username := un, user := uf, room := rm, id := cid }])
            ++ joinIds ops = idsOf st ++ joinIds (.join un uf rm cid :: ops) := by
          simp [idsOf, joinIds]
        rw [← this]
    | message m un rm cid =>
      have hst : stepState (.message m un rm cid) st = st := by
        by_cases hv : (falsy m || falsy un || falsy rm) = true
        · simp [stepState, sendMessage, hv]
        · simp [stepState, sendMessage, hv]
      rw [hrun, hst]
      exact (ih st).trans (by simp [joinIds])
    | statusUpd s rm cid now =>
      have hst : idsOf (stepState (.statusUpd s rm cid now) st) = idsOf st :=
        setFirst_idsOf (fun u => u.id == cid)
          (fun u => { u with status := some s, lastActivity := some now })
          (fun _ => rfl) st
      refine ih'.trans ?_
      rw [hst]
      simp [joinIds]
    | activity a b rm cid now =>
      have hst : idsOf (stepState (.activity a b rm cid now) st) = idsOf st :=
        setFirst_idsOf (fun u => u.id == cid)
          (fun u => { u with lastActivity := some now, currentActivity := some a })
          (fun _ => rfl) st
      refine ih'.trans ?_
      rw [hst]
      simp [joinIds]
    | disconnect cid =>
      have hsub : (stepState (.disconnect cid) st).Sublist st := by
        simp only [stepState, handleDisconnect]
        have hs := removeUser_snd_sublist cid st
        rcases hr : removeUser cid st with ⟨ru, st'⟩
        have hs' : st'.Sublist st := by simpa [hr] using hs
        cases ru with
        | none => exact hs'
        | some u => exact (List.filter_sublist st').trans hs'
      refine ih'.trans ?_
      refine List.Sublist.append ?_ ?_
      · exact hsub.map User.id
      · simp [joinIds]
    | janitor now =>
      have hsub : (stepState (.janitor now) st).Sublist st :=
        List.filter_sublist st
      refine ih'.trans ?_
      refine List.Sublist.append (hsub.map User.id) ?_
      simp [joinIds]

/-- From the empty registry, every reachable state has pairwise-distinct
connection ids. -/
theorem run_nodup (ops : List Op) : (idsOf (run ops [])).Nodup := by
  suffices h : ∀ (ops : List Op) (st : List User),
      (idsOf st).Nodup → (idsOf (run ops st)).Nodup by
    exact h ops [] (by simp [idsOf])
  intro ops
  induction ops with
  | nil => intro st h; simpa [run] using h
  | cons op ops ih =>
    intro st h
    exact ih (stepState op st) (stepState_nodup op st h)

/-- C9: registry invariant — in every state reachable from the empty
registry by any sequence of join, message, status, activity, disconnect
and janitor operations, each connection id occurs at most once among the
registered participants. -/
theorem C9_connectionId_unique (ops : List Op) :
    (idsOf (run ops [])).Nodup :=
  run_nodup ops

set_option linter.unusedVariables false in
/-- C1: after any sequence of registrations and removals with
pairwise-distinct connection ids, `getUsersInRoom room` returns exactly
the still-registered participants whose room field equals `room` — no
omissions (membership iff), no duplicates (distinct ids), and in
registration order (its id column is a subsequence of the join ids in
operation order). -/
theorem C1_membership_query (ops : List Op) (room : String)
    (hdist : (joinIds ops).Nodup) :
    (∀ u, u ∈ getUsersInRoom room (run ops []) ↔ u ∈ run ops [] ∧ u.room = room)
    ∧ (idsOf (getUsersInRoom room (run ops []))).Nodup
    ∧ (idsOf (getUsersInRoom room (run ops []))).Sublist (joinIds ops) := by
  refine ⟨fun u => ?_, ?_, ?_⟩
  · simp [getUsersInRoom, List.mem_filter]
  · exact ((List.filter_sublist _).map User.id).nodup (run_nodup ops)
  · have h1 : (idsOf (getUsersInRoom room (run ops []))).Sublist (idsOf (run ops [])) :=
      (List.filter_sublist _).map User.id
    have h2 := run_idsOf_sublist ops []
    refine h1.trans ?_
    simpa [idsOf] using h2

/-- Witness for C1 at a concrete two-join sequence. -/
theorem C1_membership_query_witness :
    (joinIds [Op.join "ann" "a" "R1" "s1", Op.join "bob" "b" "R2" "s2"]).Nodup
    ∧ ((∀ u, u ∈ getUsersInRoom "R1"
          (run [Op.join "ann" "a" "R1" "s1", Op.join "bob" "b" "R2" "s2"] [])
        ↔ u ∈ run [Op.join "ann" "a" "R1" "s1", Op.join "bob" "b" "R2" "s2"] []
          ∧ u.room = "R1")
      ∧ (idsOf (getUsersInRoom "R1"
          (run [Op.join "ann" "a" "R1" "s1", Op.join "bob" "b" "R2" "s2"] []))).Nodup
      ∧ (idsOf (getUsersInRoom "R1"
          (run [Op.join "ann" "a" "R1" "s1", Op.join "bob" "b" "R2" "s2"] []))).Sublist
          (joinIds [Op.join "ann" "a" "R1" "s1", Op.join "bob" "b" "R2" "s2"])) :=
  ⟨by decide, C1_membership_query _ "R1" (by decide)⟩

/-- C7: a participant joining room `"R1"` under a fresh connection id
appears in the immediately following `getUsersInRoom "R1"` query exactly
once, with the supplied display name. -/
theorem C7_join_roundtrip (st : List User) (un uf cid : String)
    (hfresh : ∀ v ∈ st, v.id ≠ cid) :
    (getUsersInRoom "R1" (joinRoom un uf "R1" cid st).2).filter (fun u => u.id == cid)
      = [{ username := un, user := uf, room := "R1", id := cid }] := by
  have hnone : st.find? (fun u => u.id == cid) = none := by
    rw [List.find?_eq_none]
    intro x hx
    simpa using hfresh x hx
  have h1 : (st.filter (fun u => u.room == "R1")).filter (fun u => u.id == cid) = [] := by
    rw [List.filter_eq_nil_iff]
    intro a ha
    have : a ∈ st := (List.mem_filter.mp ha).1
    simpa using hfresh a this
  simp [joinRoom, hnone, getUsersInRoom, List.filter_append, h1]

/-- Witness for C7 on the empty registry. -/
theorem C7_join_roundtrip_witness :
    (∀ v ∈ ([] : List User), v.id ≠ "s1")
    ∧ (getUsersInRoom "R1" (joinRoom "ann" "a" "R1" "s1" []).2).filter
        (fun u => u.id == "s1")
      = [{ username := "ann", user := "a", room := "R1", id := "s1" }] :=
  ⟨by simp, C7_join_roundtrip [] "ann" "a" "s1" (by simp)⟩

/-- When `removeUser` removes nothing, the array is returned unchanged. -/
theorem removeUser_fst_none (cid : String) :
    ∀ st : List User, (removeUser cid st).1 = none → (removeUser cid st).2 = st := by
  intro st
  induction st with
  | nil => intro; rfl
  | cons u us ih =>
    by_cases h : (u.id == cid) = true
    · simp [removeUser, h]
    · simp only [Bool.not_eq_true] at h
      intro hnone
      simp only [removeUser, h, Bool.false_eq_true, if_false] at hnone ⊢
      rw [ih hnone]

/-- C6: removal is idempotent. After one `disconnect` removal of a
connection id, a second `removeUser` on that id returns `null`, and a
second `disconnect` leaves the registry exactly as the first left it and
emits no second departure broadcast. -/
theorem C6_remove_idempotent (st : List User) (cid : String) :
    (removeUser cid (handleDisconnect cid st).2).1 = none
    ∧ (handleDisconnect cid (handleDisconnect cid st).2).2 = (handleDisconnect cid st).2
    ∧ (handleDisconnect cid (handleDisconnect cid st).2).1 = [] := by
  have habsent : ∀ u ∈ (handleDisconnect cid st).2, u.id ≠ cid := by
    rcases hr : removeUser cid st with ⟨ru, st'⟩
    cases ru with
    | none =>
      have hst' : st' = st := by
        have h1 : (removeUser cid st).1 = none := by rw [hr]
        have := removeUser_fst_none cid st h1
        rw [hr] at this
        exact this
      have hfind : st.find? (fun u => u.id == cid) = none := by
        rw [← removeUser_fst_eq_find, hr]
      intro u hu
      have hu' : u ∈ st := by
        simpa [handleDisconnect, hr, hst'] using hu
      have := List.find?_eq_none.mp hfind u hu'
      simpa using this
    | some w =>
      intro u hu
      have hu' : u ∈ leaveRoom w st' := by
        simpa [handleDisconnect, hr] using hu
      have hne : (u.id != w.id) = true := (List.mem_filter.mp hu').2
      have hw : (w.id == cid) = true := by
        have := List.find?_some (p := fun u => u.id == cid) (a := w)
          (by rw [← removeUser_fst_eq_find, hr])
        exact this
      have hwid : w.id = cid := by simpa using hw
      intro hcontra
      rw [← hwid] at hcontra
      simp [hcontra] at hne
  have hrem : removeUser cid (handleDisconnect cid st).2
      = (none, (handleDisconnect cid st).2) :=
    removeUser_of_absent cid _ habsent
  have h2 : handleDisconnect cid (handleDisconnect cid st).2
      = ([], (handleDisconnect cid st).2) := by
    rw [handleDisconnect, hrem]
  exact ⟨by rw [hrem], by rw [h2], by rw [h2]⟩

/-- C2 counterexample: on a registry holding one stale participant
(`lastActivity` 0) and one fresh participant of the same room, a janitor
scan at time 1000000 removes the stale one and keeps the fresh one — but
emits zero departure notices, not exactly one as the claim requires. -/
theorem C2_counterexample :
    (janitorTick 1000000 [⟨"old", "o", "R1", "s1", none, some 0, none⟩,
        ⟨"new", "n", "R1", "s2", none, some 900000, none⟩]).2
      = [⟨"new", "n", "R1", "s2", none, some 900000, none⟩]
    ∧ (janitorTick 1000000 [⟨"old", "o", "R1", "s1", none, some 0, none⟩,
        ⟨"new", "n", "R1", "s2", none, some 900000, none⟩]).1 = []
    ∧ ¬ (janitorTick 1000000 [⟨"old", "o", "R1", "s1", none, some 0, none⟩,
        ⟨"new", "n", "R1", "s2", none, some 900000, none⟩]).1.length = 1 := by
  refine ⟨by decide, rfl, by decide⟩

/-- C2 (amended): one janitor scan keeps exactly the participants whose
`lastActivity` (absent read as 0) lies within the 10-minute window,
removing all stale ones and leaving fresh ones unchanged, and it
broadcasts no departure notice to anyone. -/
theorem C2_janitor_scan (now : Int) (st : List User) :
    (∀ u, u ∈ (janitorTick now st).2
      ↔ u ∈ st ∧ now - (u.lastActivity.getD 0) < 600000)
    ∧ (janitorTick now st).1 = [] := by
  refine ⟨fun u => ?_, rfl⟩
  simp [janitorTick, cleanupInactiveUsers, List.mem_filter]

/-- C3: a `user_status_update` triggered by A in room R1 goes out in
exclude-sender mode — it reaches exactly the registered participants of
R1 other than A — while a valid `send_message` into R1 goes out in
include-sender mode, reaching exactly (and all of) the registered
participants of R1, the sender included. -/
theorem C3_fanout_scoping (st : List User) (A R1 statusVal msg un : String)
    (now : Int) (hmsg : msg ≠ "") (hun : un ≠ "") (hR : R1 ≠ "") :
    (updateStatus statusVal R1 A now st).1
      = [⟨.toRoomExceptSelf A R1, "user_status_update"⟩]
    ∧ (∀ b, b ∈ deliveredTo st ⟨.toRoomExceptSelf A R1, "user_status_update"⟩
        ↔ ((∃ u ∈ st, u.id = b ∧ u.room = R1) ∧ b ≠ A))
    ∧ (sendMessage (some msg) (some un) (some R1) A st).1
      = [⟨.toRoomAll R1, "receive_message"⟩]
    ∧ (∀ b, b ∈ deliveredTo st ⟨.toRoomAll R1, "receive_message"⟩
        ↔ ∃ u ∈ st, u.id = b ∧ u.room = R1) := by
  refine ⟨rfl, fun b => ?_, ?_, fun b => ?_⟩
  · constructor
    · intro hb
      simp only [deliveredTo, List.mem_map, List.mem_filter, Bool.and_eq_true,
        beq_iff_eq, bne_iff_ne] at hb
      obtain ⟨u, ⟨hu, hroom, hne⟩, hid⟩ := hb
      subst hid
      exact ⟨⟨u, hu, rfl, hroom⟩, hne⟩
    · intro ⟨⟨u, hu, hid, hroom⟩, hne⟩
      simp only [deliveredTo, List.mem_map, List.mem_filter, Bool.and_eq_true,
        beq_iff_eq, bne_iff_ne]
      exact ⟨u, ⟨hu, hroom, by rw [hid]; exact hne⟩, hid⟩
  · have hne : ∀ s : String, s ≠ "" → s.isEmpty = false := by
      intro s hs
      rw [Bool.eq_false_iff]
      intro hh
      exact hs ((String.isEmpty_iff s).mp hh)
    have hc : (falsy (some msg) || falsy (some un) || falsy (some R1)) = false := by
      simp [falsy, hne msg hmsg, hne un hun, hne R1 hR]
    simp [sendMessage, hc]
  · constructor
    · intro hb
      simp only [deliveredTo, List.mem_map, List.mem_filter, beq_iff_eq] at hb
      obtain ⟨u, ⟨hu, hroom⟩, hid⟩ := hb
      exact ⟨u, hu, hid, hroom⟩
    · intro ⟨u, hu, hid, hroom⟩
      simp only [deliveredTo, List.mem_map, List.mem_filter, beq_iff_eq]
      exact ⟨u, ⟨hu, hroom⟩, hid⟩

/-- Witness for C3 at a concrete non-empty payload. -/
theorem C3_fanout_scoping_witness :
    ("hello" ≠ "" ∧ "ann" ≠ "" ∧ "R1" ≠ "")
    ∧ ((updateStatus "typing" "R1" "sA" 7
          [⟨"bob", "b", "R1", "sB", none, none, none⟩]).1
        = [⟨.toRoomExceptSelf "sA" "R1", "user_status_update"⟩]
      ∧ (∀ b, b ∈ deliveredTo [⟨"bob", "b", "R1", "sB", none, none, none⟩]
            ⟨.toRoomExceptSelf "sA" "R1", "user_status_update"⟩
          ↔ ((∃ u ∈ [(⟨"bob", "b", "R1", "sB", none, none, none⟩ : User)],
              u.id = b ∧ u.room = "R1") ∧ b ≠ "sA"))
      ∧ (sendMessage (some "hello") (some "ann") (some "R1") "sA"
          [⟨"bob", "b", "R1", "sB", none, none, none⟩]).1
        = [⟨.toRoomAll "R1", "receive_message"⟩]
      ∧ (∀ b, b ∈ deliveredTo [⟨"bob", "b", "R1", "sB", none, none, none⟩]
            ⟨.toRoomAll "R1", "receive_message"⟩
          ↔ ∃ u ∈ [(⟨"bob", "b", "R1", "sB", none, none, none⟩ : User)],
              u.id = b ∧ u.room = "R1")) :=
  ⟨⟨by decide, by decide, by decide⟩,
    C3_fanout_scoping _ "sA" "R1" "typing" "hello" "ann" 7
      (by decide) (by decide) (by decide)⟩

/-- C4: a `send_message` whose payload lacks a non-empty message body,
sender name or room id produces exactly one `error` event delivered to
the sender alone, broadcasts nothing, and leaves the registry
unchanged. -/
theorem C4_invalid_payload (message username room : Option String)
    (cid : String) (st : List User)
    (h : falsy message = true ∨ falsy username = true ∨ falsy room = true) :
    (sendMessage message username room cid st).1 = [⟨.toSelf cid, "error"⟩]
    ∧ (sendMessage message username room cid st).2 = st
    ∧ deliveredTo st ⟨.toSelf cid, "error"⟩ = [cid] := by
  have hc : (falsy message || falsy username || falsy room) = true := by
    rcases h with h | h | h <;> simp [h]
  refine ⟨?_, ?_, rfl⟩
  · simp [sendMessage, hc]
  · simp [sendMessage, hc]

/-- Witness for C4 at an absent message body. -/
theorem C4_invalid_payload_witness :
    (falsy none = true ∨ falsy (some "ann") = true ∨ falsy (some "R1") = true)
    ∧ ((sendMessage none (some "ann") (some "R1") "sA" []).1
        = [⟨.toSelf "sA", "error"⟩]
      ∧ (sendMessage none (some "ann") (some "R1") "sA" []).2 = []
      ∧ deliveredTo [] ⟨.toSelf "sA", "error"⟩ = ["sA"]) :=
  ⟨Or.inl rfl, C4_invalid_payload none (some "ann") (some "R1") "sA" []
    (Or.inl rfl)⟩

/-- C5 counterexample: an `update_status` from the unregistered sender
"sockA" leaves the registry unchanged, yet its `user_status_update`
broadcast is still emitted and delivered to the other room member
"sockB" — contradicting the claim that no status-change broadcast
reaches other room members for an unregistered sender. -/
theorem C5_counterexample :
    (∀ u ∈ [(⟨"bob", "b", "R1", "sockB", none, none, none⟩ : User)],
      u.id ≠ "sockA")
    ∧ (updateStatus "typing" "R1" "sockA" 5
        [⟨"bob", "b", "R1", "sockB", none, none, none⟩]).2
      = [⟨"bob", "b", "R1", "sockB", none, none, none⟩]
    ∧ (updateStatus "typing" "R1" "sockA" 5
        [⟨"bob", "b", "R1", "sockB", none, none, none⟩]).1
      = [⟨.toRoomExceptSelf "sockA" "R1", "user_status_update"⟩]
    ∧ "sockB" ∈ deliveredTo [⟨"bob", "b", "R1", "sockB", none, none, none⟩]
        ⟨.toRoomExceptSelf "sockA" "R1", "user_status_update"⟩ := by
  refine ⟨by decide, by decide, rfl, by decide⟩

/-- C5 (amended): an `update_status` referencing an unregistered
connection id performs no registry state change, but the
`user_status_update` broadcast to the room (sender excluded) is still
emitted regardless of registration. -/
theorem C5_touch_unregistered (st : List User) (cid statusVal R : String)
    (now : Int) (h : ∀ u ∈ st, u.id ≠ cid) :
    (updateStatus statusVal R cid now st).2 = st
    ∧ (updateStatus statusVal R cid now st).1
      = [⟨.toRoomExceptSelf cid R, "user_status_update"⟩] := by
  refine ⟨?_, rfl⟩
  exact setFirst_of_absent _ _ st (fun u hu => by simpa using h u hu)

/-- Witness for C5's amended statement on a singleton registry. -/
theorem C5_touch_unregistered_witness :
    (∀ u ∈ [(⟨"bob", "b", "R1", "sockB", none, none, none⟩ : User)],
      u.id ≠ "sockA")
    ∧ ((updateStatus "idle" "R1" "sockA" 9
        [⟨"bob", "b", "R1", "sockB", none, none, none⟩]).2
      = [⟨"bob", "b", "R1", "sockB", none, none, none⟩]
    ∧ (updateStatus "idle" "R1" "sockA" 9
        [⟨"bob", "b", "R1", "sockB", none, none, none⟩]).1
      = [⟨.toRoomExceptSelf "sockA" "R1", "user_status_update"⟩]) :=
  ⟨by decide, C5_touch_unregistered _ "sockA" "idle" "R1" 9 (by decide)⟩

/-- C8 counterexample: a `join_room` reusing the already-registered
connection id "s1" adds no second entry, but is not failed: the handler
still emits the normal join announcement, roster and welcome events and
emits no `error` event at all — contradicting a rejection with
`DuplicateConnection` logged at warning level. -/
theorem C8_counterexample :
    (joinRoom "ann2" "a2" "R1" "s1"
        [⟨"ann", "a", "R1", "s1", none, none, none⟩]).2
      = [⟨"ann", "a", "R1", "s1", none, none, none⟩]
    ∧ (joinRoom "ann2" "a2" "R1" "s1"
        [⟨"ann", "a", "R1", "s1", none, none, none⟩]).1
      = [⟨.toRoomExceptSelf "s1" "R1", "receive_message"⟩,
         ⟨.toRoomAll "R1", "chatroom_users"⟩,
         ⟨.toSelf "s1", "receive_message"⟩]
    ∧ ∀ e ∈ (joinRoom "ann2" "a2" "R1" "s1"
        [⟨"ann", "a", "R1", "s1", none, none, none⟩]).1, e.event ≠ "error" := by
  refine ⟨by decide, rfl, by decide⟩

/-- C8 (amended): a registration attempt whose connection id is already
present adds no second entry, but it is silently ignored rather than
failed: the handler emits the normal join announcement, roster and
welcome events and produces no error or warning. -/
theorem C8_duplicate_join (st : List User) (un uf rm cid : String)
    (hdup : ∃ v ∈ st, v.id = cid) :
    (joinRoom un uf rm cid st).2 = st
    ∧ (joinRoom un uf rm cid st).1
      = [⟨.toRoomExceptSelf cid rm, "receive_message"⟩,
         ⟨.toRoomAll rm, "chatroom_users"⟩,
         ⟨.toSelf cid, "receive_message"⟩]
    ∧ ∀ e ∈ (joinRoom un uf rm cid st).1, e.event ≠ "error" := by
  obtain ⟨v, hv, hid⟩ := hdup
  have hsome : (st.find? (fun u => u.id == cid)).isSome := by
    rw [List.find?_isSome]
    exact ⟨v, hv, by simp [hid]⟩
  refine ⟨by simp [joinRoom, hsome], rfl, ?_⟩
  intro e he
  simp only [joinRoom, List.mem_cons, List.not_mem_nil, or_false] at he
  rcases he with rfl | rfl | rfl <;> simp

/-- Witness for C8's amended statement. -/
theorem C8_duplicate_join_witness :
    (∃ v ∈ [(⟨"ann", "a", "R1", "s1", none, none, none⟩ : User)], v.id = "s1")
    ∧ ((joinRoom "ann2" "a2" "R2" "s1"
          [⟨"ann", "a", "R1", "s1", none, none, none⟩]).2
        = [⟨"ann", "a", "R1", "s1", none, none, none⟩]
      ∧ (joinRoom "ann2" "a2" "R2" "s1"
          [⟨"ann", "a", "R1", "s1", none, none, none⟩]).1
        = [⟨.toRoomExceptSelf "s1" "R2", "receive_message"⟩,
           ⟨.toRoomAll "R2", "chatroom_users"⟩,
           ⟨.toSelf "s1", "receive_message"⟩]
      ∧ ∀ e ∈ (joinRoom "ann2" "a2" "R2" "s1"
          [⟨"ann", "a", "R1", "s1", none, none, none⟩]).1, e.event ≠ "error") :=
  ⟨⟨_, List.mem_cons_self _ _, rfl⟩,
    C8_duplicate_join _ "ann2" "a2" "R2" "s1" ⟨_, List.mem_cons_self _ _, rfl⟩⟩

/-- C10: `join_room` registers a participant with no `lastActivity`
field, and the janitor reads an absent `lastActivity` as 0; hence once
the clock is past the 10-minute threshold, the first janitor scan after
a join evicts the joiner if no status or activity event intervened —
regardless of how recently the join happened. -/
theorem C10_join_evicted_by_janitor (st : List User) (un uf rm cid : String)
    (now : Int) (hfresh : ∀ v ∈ st, v.id ≠ cid) (hnow : 600000 ≤ now) :
    (∃ u ∈ (joinRoom un uf rm cid st).2, u.id = cid ∧ u.lastActivity = none)
    ∧ ∀ u ∈ (janitorTick now (joinRoom un uf rm cid st).2).2, u.id ≠ cid := by
  have hnone : st.find? (fun u => u.id == cid) = none := by
    rw [List.find?_eq_none]
    intro x hx
    simpa using hfresh x hx
  have hst : (joinRoom un uf rm cid st).2
      = st ++ [{ username := un, user := uf, room := rm, id := cid }] := by
    simp [joinRoom, hnone]
  constructor
  · refine ⟨{ username := un, user := uf, room := rm, id := cid }, ?_, rfl, rfl⟩
    rw [hst]
    simp
  · intro u hu
    rw [hst] at hu
    simp only [janitorTick, cleanupInactiveUsers, List.mem_filter,
      List.mem_append, List.mem_singleton, decide_eq_true_eq] at hu
    obtain ⟨hmem | hmem, hcond⟩ := hu
    · exact hfresh u hmem
    · rw [hmem] at hcond
      simp only [Option.getD_none] at hcond
      omega

/-- Witness for C10 on the empty registry at time 600000. -/
theorem C10_join_evicted_by_janitor_witness :
    ((∀ v ∈ ([] : List User), v.id ≠ "s1") ∧ (600000 : Int) ≤ 600000)
    ∧ ((∃ u ∈ (joinRoom "ann" "a" "R1" "s1" []).2,
          u.id = "s1" ∧ u.lastActivity = none)
      ∧ ∀ u ∈ (janitorTick 600000 (joinRoom "ann" "a" "R1" "s1" []).2).2,
          u.id ≠ "s1") :=
  ⟨⟨by simp, le_refl _⟩,
    C10_join_evicted_by_janitor [] "ann" "a" "R1" "s1" 600000 (by simp)
      (le_refl _)⟩

end FryDT
